import Mathlib

/-!
# Verification of the `v8-nodejs` mini JavaScript runtime

A shallow embedding, in Lean 4, of the core of the `v8-nodejs` runtime:

* the module loader (`src/global/module_loader.rs`): specifier
  classification, relative-path resolution with extension candidates,
  module compilation / instantiation / caching, built-in module synthesis;
* the async task bridge and event loop (`src/builtin/async_task.rs`):
  the task registry, message delivery, promise settlement, microtask
  checkpoints, and the value bridge `AsyncTaskValue::into_v8`;
* the file built-in (`src/builtin/fs.rs`): the `write` method's
  synchronous type check and its byte-count result;
* the global injection (`src/global/mod.rs`): which names are exposed on
  the global object.

Rust side effects are made explicit: the filesystem and the V8 engine
are oracles (`LoaderEnv`), loader state is threaded explicitly, and the
tokio completion channel is modelled by its buffered messages together
with the liveness of the manager's retained sender, with `recv`
pending on an empty buffer while any sender is alive.
-/

/-! ## Path model

Rust `Path` operations used by the loader, modelled on strings of
`/`-separated components (paths are taken component-normalized, which is
the form the loader actually sees for its referrer paths).
-/

/-- Rust `str::starts_with`: `pre` is a literal prefix of `s`
(char-by-char comparison). -/
def listIsPre : List Char → List Char → Bool
  | [], _ => true
  | _ :: _, [] => false
  | a :: as, b :: bs => a = b && listIsPre as bs

/-- Rust `str::starts_with` on strings. -/
def rustStartsWith (s pre : String) : Bool := listIsPre pre.data s.data

/-- Split a path's characters into (directory part including the trailing
slash, file name). Models `Path::file_name` / the prefix left of it. -/
def splitFileName (cs : List Char) : List Char × List Char :=
  let rev := cs.reverse
  ((rev.dropWhile (· ≠ '/')).reverse, (rev.takeWhile (· ≠ '/')).reverse)

/-- Helper for `rustExtSplit`, working on the REVERSED file name: returns
(reversed extension, reversed stem) for the last `.`, provided a nonempty
stem precedes it (Rust: a leading dot as in `.bashrc` starts no extension). -/
def extSplitRev : List Char → Option (List Char × List Char)
  | [] => none
  | c :: rest =>
    if c = '.' then (if rest = [] then none else some ([], rest))
    else (extSplitRev rest).map (fun pr => (c :: pr.1, pr.2))

/-- Rust `Path::file_stem`/`Path::extension` on a file name: splits
`stem.ext` at the last dot; `none` when the name has no extension. -/
def rustExtSplit (name : List Char) : Option (List Char × List Char) :=
  (extSplitRev name.reverse).map (fun pr => (pr.2.reverse, pr.1.reverse))

/-- Rust `PathBuf::set_extension(ext)`: replaces an existing extension of
the file name (or appends `.ext` when there is none); `ext = ""` just
strips an existing extension.  A path whose file name is empty, `.` or
`..` is returned unchanged (Rust: `file_name()` is `None`, no-op). -/
def rustSetExtension (p : String) (ext : String) : String :=
  let (dir, name) := splitFileName p.data
  if name = [] ∨ name = ['.'] ∨ name = ['.', '.'] then p
  else
    let stem := match rustExtSplit name with
      | some pr => pr.1
      | none => name
    let newName := if ext.data = [] then stem else stem ++ '.' :: ext.data
    String.mk (dir ++ newName)

/-- Rust `Path::join` as used on `referrer_dir.join(&specifier_str)`:
an absolute specifier replaces the path, otherwise it is appended with a
separator. -/
def rustJoin (d s : String) : String :=
  if rustStartsWith s "/" then s
  else if d = "" then s
  else if String.mk [d.data.getLast!] = "/" then d ++ s
  else d ++ "/" ++ s

/-- Rust `Path::parent().unwrap_or("")` on the referrer path: drops the
last component; the parent of a top-level `/name` is `/`. -/
def rustParent (p : String) : String :=
  let (dir, _) := splitFileName p.data
  match dir with
  | ['/'] => "/"
  | cs => String.mk (cs.dropLast)

/-! ## Association lists

`BTreeMap` / `DashMap` state is modelled as association lists where an
insert prepends (and so shadows) and key lookup takes the newest entry. -/

/-- Key lookup in an association list (`BTreeMap::get` / `DashMap::get`). -/
def alookup {α β : Type} [DecidableEq α] (k : α) : List (α × β) → Option β
  | [] => none
  | (a, b) :: l => if a = k then some b else alookup k l

/-- Key removal (`DashMap::remove`); keys are unique in the Rust maps, so
removing every occurrence is faithful. -/
def eraseKey {α β : Type} [DecidableEq α] (k : α) : List (α × β) → List (α × β)
  | [] => []
  | (a, b) :: l => if a = k then eraseKey k l else (a, b) :: eraseKey k l

/-! ## Module loader (`src/global/module_loader.rs`)

Modules are engine handles (`Nat`).  The engine and filesystem behaviour
that the loader merely invokes — `fs::canonicalize`, `fs::read_to_string`,
`compile_script_module` (which yields the module and its identity hash),
`instantiate_module`'s success, and `create_synthetic_module` — are
oracles in `LoaderEnv`.  Instantiation of a module recursively resolves
its imports through `resolve_module_callback`; those recursive calls are
modelled as further operations in an operation sequence (`LoaderOp`). -/

/-- The engine/filesystem oracle for the module loader. -/
structure LoaderEnv where
  /-- `fs::canonicalize`: `some` canonical path when the path exists. -/
  canonicalize : String → Option String
  /-- `fs::read_to_string`: `some` content on success. -/
  readFile : String → Option String
  /-- `compile_script_module code resource_path`: `some (module handle,
  identity hash)` on success. -/
  compile : String → String → Option (Nat × Int)
  /-- Whether `instantiate_module` succeeds for a compiled module. -/
  instantiateOk : Nat → Bool
  /-- `Module::create_synthetic_module` for a bare specifier. -/
  syntheticModule : String → Nat

/-- The three maps owned by `ModuleLoader`. -/
structure LoaderState where
  id_to_path_map : List (Int × String)
  module_cache : List (String × Nat)
  builtin_modules : List (String × Nat)

/-- The empty `ModuleLoader` built by `init_and_inject`. -/
def initLoaderState : LoaderState :=
  { id_to_path_map := [], module_cache := [], builtin_modules := [] }

/-- `ModuleLoader::get_or_compile_module`: cache hit, else read, compile,
record the identity hash in `id_to_path_map`, instantiate, and only on
instantiation success insert into `module_cache`. -/
def get_or_compile_module (env : LoaderEnv) (st : LoaderState)
    (absolute_path : String) : Option Nat × LoaderState :=
  match alookup absolute_path st.module_cache with
  | some m => (some m, st)
  | none =>
    match env.readFile absolute_path with
    | none => (none, st)
    | some content =>
      match env.compile content absolute_path with
      | none => (none, st)
      | some (m, hash_id) =>
        if env.instantiateOk m then
          (some m, { st with
              id_to_path_map := (hash_id, absolute_path) :: st.id_to_path_map,
              module_cache := (absolute_path, m) :: st.module_cache })
        else
          (none, { st with
              id_to_path_map := (hash_id, absolute_path) :: st.id_to_path_map })

/-- `ModuleLoader::load_builtin_module`: `builtin_modules.entry(s).or_insert_with
(init_builtin_module)`. -/
def load_builtin_module (env : LoaderEnv) (st : LoaderState)
    (specifier : String) : Option Nat × LoaderState :=
  match alookup specifier st.builtin_modules with
  | some m => (some m, st)
  | none =>
    let m := env.syntheticModule specifier
    (some m, { st with builtin_modules := (specifier, m) :: st.builtin_modules })

/-- The specifier classification in `resolve_module_callback`
(line 256): built-in iff the specifier starts with neither `'.'` nor `'/'`. -/
def isBuiltinSpecifier (s : String) : Bool :=
  !(rustStartsWith s ".") && !(rustStartsWith s "/")

/-- The extension candidates array `EXTENSIONS` (line 267). -/
def EXTENSIONS : List String := ["", "js"]

/-- The candidate paths tried by `resolve_module_callback` after joining:
`resolved_path_buf.set_extension(extension)` for each entry of
`EXTENSIONS`, in order. -/
def extensionCandidates (joined : String) : List String :=
  EXTENSIONS.map (rustSetExtension joined)

/-- `resolve_module_callback`: classify the specifier; for a built-in load
the synthetic module; otherwise look the referrer up in `id_to_path_map`,
join its parent directory with the specifier, try the extension
candidates (first one that canonicalizes wins) and hand the canonical
path to `get_or_compile_module`. -/
def resolve_module_callback (env : LoaderEnv) (st : LoaderState)
    (specifier : String) (referrer_id : Int) : Option Nat × LoaderState :=
  if isBuiltinSpecifier specifier then
    load_builtin_module env st specifier
  else
    match alookup referrer_id st.id_to_path_map with
    | none => (none, st)
    | some referrer_path =>
      match (extensionCandidates (rustJoin (rustParent referrer_path) specifier)).findSome?
          env.canonicalize with
      | none => (none, st)
      | some path => get_or_compile_module env st path

/-- `ModuleLoader::create_first_module`: canonicalize the entry path,
then `get_or_compile_module`. -/
def create_first_module (env : LoaderEnv) (st : LoaderState)
    (path_str : String) : Option Nat × LoaderState :=
  match env.canonicalize path_str with
  | none => (none, st)
  | some absolute_path => get_or_compile_module env st absolute_path

/-- One externally triggered module-loader operation.  Recursive
resolutions performed by the engine during instantiation appear as
further `resolveCallback` elements of an operation list. -/
inductive LoaderOp where
  | getOrCompile (absolute_path : String)
  | loadBuiltin (specifier : String)
  | createFirst (path_str : String)
  | resolveCallback (specifier : String) (referrer_id : Int)

/-- Apply one loader operation to the state. -/
def applyLoaderOp (env : LoaderEnv) (st : LoaderState) : LoaderOp → LoaderState
  | .getOrCompile p => (get_or_compile_module env st p).2
  | .loadBuiltin s => (load_builtin_module env st s).2
  | .createFirst p => (create_first_module env st p).2
  | .resolveCallback s r => (resolve_module_callback env st s r).2

/-- Apply a sequence of loader operations. -/
def applyLoaderOps (env : LoaderEnv) (st : LoaderState) (ops : List LoaderOp) : LoaderState :=
  ops.foldl (applyLoaderOp env) st

/-- The spec's claimed invariant: every key of `id_to_path_map` has a
corresponding `module_cache` entry. -/
def idPathInvariant (st : LoaderState) : Prop :=
  ∀ id p, alookup id st.id_to_path_map = some p →
    ∃ m, alookup p st.module_cache = some m

/-! ## Value bridge (`src/builtin/async_task.rs`)

`AsyncTaskValue` carries scalar values from native futures into the
engine.  Engine-side values are modelled by `V8Value`; an engine number
is a binary64 double, and every value the bridge produces (`i32 as f64`)
is exactly representable, so the model carries the exact integer and the
exactness is stated separately through `f64ExactInt`. -/

/-- `AsyncTaskValue`: the tagged value carried across the bridge
(`String(Vec<u8>)`, `Number(i32)`, `Undefined`). -/
inductive AsyncTaskValue where
  | str (bytes : List Nat)
  | num (n : Int)
  | undefined
deriving DecidableEq

/-- `AsyncTaskResult`: `Resolve(..)` or `Reject(..)`. -/
inductive AsyncTaskResult where
  | resolve (v : AsyncTaskValue)
  | reject (v : AsyncTaskValue)
deriving DecidableEq

/-- `AsyncTaskMessage`: `{ task_id, payload }`. -/
structure AsyncTaskMessage where
  task_id : Nat
  payload : AsyncTaskResult
deriving DecidableEq

/-- An engine value as observable by script. -/
inductive V8Value where
  | str (s : String)
  | num (n : Int)
  | undefined
deriving DecidableEq

/-! ### UTF-8 encoding and validation

`write_file` turns the argument string into its UTF-8 bytes
(`String::into_bytes`), and `AsyncTaskValue::into_v8` validates bytes
with `std::str::from_utf8` (empty string on failure).  Both are embedded
executably: `charUtf8Bytes` is the UTF-8 encoding of one scalar value,
and `utf8Decode` is the standard UTF-8 validation automaton used by
Rust (shortest-form only, surrogates and values above U+10FFFF
rejected), written with division/remainder arithmetic. -/

/-- UTF-8 encoding of one Unicode scalar value (1–4 bytes). -/
def charUtf8Bytes (c : Char) : List Nat :=
  let v := c.toNat
  if v < 0x80 then [v]
  else if v < 0x800 then [0xC0 + v / 64, 0x80 + v % 64]
  else if v < 0x10000 then
    [0xE0 + v / 4096, 0x80 + v / 64 % 64, 0x80 + v % 64]
  else
    [0xF0 + v / 262144, 0x80 + v / 4096 % 64, 0x80 + v / 64 % 64, 0x80 + v % 64]

/-- UTF-8 encoding of a character list. -/
def utf8BytesList : List Char → List Nat
  | [] => []
  | c :: cs => charUtf8Bytes c ++ utf8BytesList cs

/-- `String::into_bytes` / `str::as_bytes`: the UTF-8 bytes of a string. -/
def utf8Bytes (s : String) : List Nat := utf8BytesList s.data

/-- The UTF-8 byte length of a string. -/
def bytesLen (s : String) : Nat := (utf8Bytes s).length

/-- One continuation byte (`0x80`–`0xBF`) after a 2-byte leader:
decode `110xxxxx 10xxxxxx`. -/
def utf8Step2 (b0 : Nat) : List Nat → Option (Char × List Nat)
  | b1 :: rest2 =>
    if 0x80 ≤ b1 ∧ b1 ≤ 0xBF then
      some (Char.ofNat ((b0 - 0xC0) * 64 + (b1 - 0x80)), rest2)
    else none
  | [] => none

/-- Two continuation bytes after a 3-byte leader; the first byte's
bounds depend on the leader (`0xE0` excludes overlong forms, `0xED`
excludes surrogates). -/
def utf8Step3 (b0 : Nat) : List Nat → Option (Char × List Nat)
  | b1 :: b2 :: rest3 =>
    if (if b0 = 0xE0 then 0xA0 else 0x80) ≤ b1 ∧
        b1 ≤ (if b0 = 0xED then 0x9F else 0xBF) ∧
        0x80 ≤ b2 ∧ b2 ≤ 0xBF then
      some (Char.ofNat ((b0 - 0xE0) * 4096 + (b1 - 0x80) * 64 + (b2 - 0x80)), rest3)
    else none
  | _ => none

/-- Three continuation bytes after a 4-byte leader; the first byte's
bounds depend on the leader (`0xF0` excludes overlong forms, `0xF4`
caps at `U+10FFFF`). -/
def utf8Step4 (b0 : Nat) : List Nat → Option (Char × List Nat)
  | b1 :: b2 :: b3 :: rest4 =>
    if (if b0 = 0xF0 then 0x90 else 0x80) ≤ b1 ∧
        b1 ≤ (if b0 = 0xF4 then 0x8F else 0xBF) ∧
        0x80 ≤ b2 ∧ b2 ≤ 0xBF ∧ 0x80 ≤ b3 ∧ b3 ≤ 0xBF then
      some (Char.ofNat ((b0 - 0xF0) * 262144 + (b1 - 0x80) * 4096 +
        (b2 - 0x80) * 64 + (b3 - 0x80)), rest4)
    else none
  | _ => none

/-- Decode one scalar value beginning with leader byte `b0`: the byte
classification of Rust's UTF-8 validation (`std::str::from_utf8`):
ASCII, stray continuation or overlong leader (`0x80`–`0xC1`) rejected,
2-, 3- and 4-byte forms with shortest-form/surrogate/upper-bound
checks, leaders above `0xF4` rejected. -/
def utf8DecodeStep (b0 : Nat) (rest : List Nat) : Option (Char × List Nat) :=
  if b0 < 0x80 then some (Char.ofNat b0, rest)
  else if b0 < 0xC2 then none
  else if b0 < 0xE0 then utf8Step2 b0 rest
  else if b0 < 0xF0 then utf8Step3 b0 rest
  else if b0 < 0xF5 then utf8Step4 b0 rest
  else none

/-- Run `utf8DecodeStep` to the end of the stream.  `fuel` only bounds
the recursion: each step consumes at least one byte, so `fuel = length`
never runs out. -/
def utf8DecodeAux : Nat → List Nat → Option (List Char)
  | _, [] => some []
  | 0, _ :: _ => none
  | fuel + 1, b0 :: rest =>
    match utf8DecodeStep b0 rest with
    | none => none
    | some cr => (utf8DecodeAux fuel cr.2).map (fun cs => cr.1 :: cs)

/-- `std::str::from_utf8`: validating UTF-8 decoder.  `none` on any
ill-formed input (stray or missing continuation bytes, overlong forms,
surrogates `U+D800`–`U+DFFF`, values above `U+10FFFF`). -/
def utf8Decode (l : List Nat) : Option (List Char) := utf8DecodeAux l.length l

/-- `AsyncTaskValue::into_v8`: `String` bytes go through
`std::str::from_utf8(..).unwrap_or_default()` (empty string when
invalid), `Number` through `v8::Number::new(scope, value as f64)`, and
`Undefined` to the engine's undefined. -/
def into_v8 : AsyncTaskValue → V8Value
  | .str bytes =>
    .str (match utf8Decode bytes with
          | some cs => String.mk cs
          | none => "")
  | .num n => .num n
  | .undefined => .undefined

/-- The `i32` range. -/
def i32Range (n : Int) : Prop := -(2 ^ 31) ≤ n ∧ n < 2 ^ 31

/-- Exact representability of an integer as a binary64 double: every
integer of magnitude at most `2^53` is a double, so a conversion that
lands in this range loses nothing. -/
def f64ExactInt (n : Int) : Prop := n.natAbs ≤ 2 ^ 53

/-! ## Async task registry and event loop (`src/builtin/async_task.rs`)

The registry (`TokioAsyncTaskManager`) holds pending tasks (task id ↦
promise resolver handle) in a `DashMap`.  The settlement of a promise
resolver is recorded in a ghost `settlements` list (resolver handles are
modelled as `Nat`).  The tokio mpsc channel is modelled by the finite
list of messages it yields before every sender is dropped and `recv`
returns `None`. -/

/-- Which resolver arm a delivery invoked, and with which engine value. -/
inductive SettleArm where
  | resolvedArm (v : V8Value)
  | rejectedArm (v : V8Value)
deriving DecidableEq

/-- The arm selected for a message payload: `Resolve` invokes
`resolver.resolve` with the bridged value, `Reject` invokes
`resolver.reject`. -/
def armOf : AsyncTaskResult → SettleArm
  | .resolve v => .resolvedArm (into_v8 v)
  | .reject v => .rejectedArm (into_v8 v)

/-- Registry state: `tasks` is the `DashMap<TaskID, AsyncTask>` (task id
↦ resolver handle); `settlements` is the ghost record of settled
promises (task id ↦ arm used). -/
structure RegState where
  tasks : List (Nat × Nat)
  settlements : List (Nat × SettleArm)
deriving DecidableEq

/-- The registry part of `create_async_task`: record `{ id, resolver }`
in the task map (the spawned future later reports through the channel). -/
def create_async_task (st : RegState) (task_id resolver : Nat) : RegState :=
  { st with tasks := (task_id, resolver) :: st.tasks }

/-- The body of `run_event_loop`'s `while let` for one received message:
`tasks.remove(&task_id)`; on a hit, settle through the matching arm
(recorded in `settlements`); on a miss the message is dropped. -/
def processMessage (st : RegState) (m : AsyncTaskMessage) : RegState :=
  match alookup m.task_id st.tasks with
  | some _resolver =>
    { tasks := eraseKey m.task_id st.tasks,
      settlements := (m.task_id, armOf m.payload) :: st.settlements }
  | none => st

/-- Script-observable events of one loop iteration: a settlement, then
the forced microtask checkpoint (`perform_microtask_checkpoint`), which
runs the continuations of the promise settled just before it.  The
checkpoint is tagged with the id of that promise.  A dropped message
emits nothing. -/
inductive LoopEvent where
  | settle (id : Nat) (arm : SettleArm)
  | checkpoint (id : Nat)
deriving DecidableEq

/-- The events emitted while processing one message. -/
def stepEvents (st : RegState) (m : AsyncTaskMessage) : List LoopEvent :=
  match alookup m.task_id st.tasks with
  | some _ => [.settle m.task_id (armOf m.payload), .checkpoint m.task_id]
  | none => []

/-- `run_event_loop`'s processing of a finite prefix of dequeued
messages, in dequeue order: final registry state and the event trace.
This captures the per-message delivery semantics and ordering; whether
the loop ever returns is a separate question, settled by
`liveLoopStep` below. -/
def run_event_loop : RegState → List AsyncTaskMessage → RegState × List LoopEvent
  | st, [] => (st, [])
  | st, m :: rest =>
    ((run_event_loop (processMessage st m) rest).1,
      stepEvents st m ++ (run_event_loop (processMessage st m) rest).2)

/-- A configuration of the `while let` loop: the messages currently
buffered in the channel, whether the `channel_sender` FIELD of
`TokioAsyncTaskManager` (`async_task.rs` line 63) is still alive, and
the registry.  The field is only cloned — never moved out or dropped —
by `create_async_task`, and `run_event_loop(&mut self, ..)` borrows the
manager, so while the loop runs the field stays alive. -/
structure LiveLoopConfig where
  buffered : List AsyncTaskMessage
  channel_sender_live : Bool
  reg : RegState
deriving DecidableEq

/-- What one `channel_receiver.recv().await` does next. -/
inductive LoopOutcome where
  | running (next : LiveLoopConfig)
  | blocked
  | returned
deriving DecidableEq

/-- One `recv().await` step of the loop, per tokio mpsc semantics: a
buffered message is dequeued and delivered; on an empty buffer, `recv`
returns `None` (and the loop returns) only once every sender is
dropped — a live sender makes `recv` pend.  Per-task sender clones only
add further senders, so the manager's own field being alive already
forces pending; the model therefore tracks that field alone. -/
def liveLoopStep : LiveLoopConfig → LoopOutcome
  | ⟨m :: rest, sl, st⟩ => .running ⟨rest, sl, processMessage st m⟩
  | ⟨[], true, _⟩ => .blocked
  | ⟨[], false, _⟩ => .returned

/-- Iterate `liveLoopStep` while it keeps running. -/
def liveLoopIterate : Nat → LiveLoopConfig → LiveLoopConfig
  | 0, cfg => cfg
  | n + 1, cfg =>
    match liveLoopStep cfg with
    | .running cfg1 => liveLoopIterate n cfg1
    | _ => cfg

/-- Whether a step outcome is the loop returning. -/
def isReturned : LoopOutcome → Bool
  | .returned => true
  | _ => false

/-- A task id has a pending entry in the registry. -/
def isPending (id : Nat) (st : RegState) : Bool := (alookup id st.tasks).isSome

/-- A task id's promise has been settled. -/
def isSettled (id : Nat) (st : RegState) : Bool := (alookup id st.settlements).isSome

/-- The registry invariant: no task id is simultaneously pending and
settled — together with the fact that every id ever created is in one of
the two maps, this is "a `PendingTask` exists iff its promise is not yet
settled". -/
def regInvariant (st : RegState) : Prop :=
  ∀ id, ¬(isPending id st = true ∧ isSettled id st = true)

/-! ## File built-in: `write` (`src/builtin/fs.rs`)

`write_file` checks its argument synchronously: a non-string raises an
engine exception in the calling frame and no async task is spawned
(`Except.error`).  For a string it spawns a future that writes the full
UTF-8 byte sequence, flushes, and resolves with
`Number(new_content.len() as i32)`. -/

/-- `as i32` on a `usize` byte count: reduce modulo `2^32`, reinterpret
as signed. -/
def toI32 (n : Nat) : Int :=
  if n % 2 ^ 32 < 2 ^ 31 then ((n % 2 ^ 32 : Nat) : Int)
  else ((n % 2 ^ 32 : Nat) : Int) - 2 ^ 32

/-- The spawned write task: the bytes handed to `File::write` (which
writes them all and flushes), and the message payload sent on success. -/
structure WriteSpawned where
  written : List Nat
  flushed : Bool
  okOutcome : AsyncTaskResult
deriving DecidableEq

/-- `write_file`: `args.get(0).try_cast::<v8::String>()` — on failure
throw synchronously (`Except.error`, no task created); otherwise spawn
the write of `new_content.into_bytes()` whose success payload is
`Resolve(Number(new_content.len() as i32))`. -/
def write_file (arg : V8Value) : Except String WriteSpawned :=
  match arg with
  | .str s =>
    .ok { written := utf8Bytes s,
          flushed := true,
          okOutcome := .resolve (.num (toI32 (utf8Bytes s).length)) }
  | _ => .error "type error: the argument must be a string"

/-! ## Global injection (`src/global/mod.rs`) and built-in synthesis -/

/-- The host functions that exist in the runtime. -/
inductive HostFunction where
  | printImpl
deriving DecidableEq

/-- `inject_global_values`: the full list of (name, function) pairs set
on the global object template — only `print`. -/
def inject_global_values : List (String × HostFunction) := [("print", HostFunction.printImpl)]

/-- `create_fs`: the methods set on the `fs` object template. -/
def create_fs_methods : List String := ["openFile"]

/-- `init_builtin_module`: the export names of the synthetic module. -/
def init_builtin_module_exports : List String := ["default"]

/-- The methods of the object bound to the `default` export of a bare
specifier's synthetic module: the evaluation callback ignores the
specifier and always instantiates the `create_fs` template. -/
def builtin_default_export_methods (_specifier : String) : List String := create_fs_methods

/-! ## Definitions following the spec's words (for refinement claims) -/

/-- Per the spec's words: extension candidates are the literal joined
path, then the path with extension `js` appended. -/
def specLiteralCandidates (joined : String) : List String := [joined, joined ++ ".js"]

/-- Per the spec's words: `resolve_module_callback` with the literal
candidate first (everything else as in the code). -/
def spec_resolve_module_callback (env : LoaderEnv) (st : LoaderState)
    (specifier : String) (referrer_id : Int) : Option Nat × LoaderState :=
  if isBuiltinSpecifier specifier then
    load_builtin_module env st specifier
  else
    match alookup referrer_id st.id_to_path_map with
    | none => (none, st)
    | some referrer_path =>
      match (specLiteralCandidates (rustJoin (rustParent referrer_path) specifier)).findSome?
          env.canonicalize with
      | none => (none, st)
      | some path => get_or_compile_module env st path

/-- Per the spec's words: a specifier is a built-in exactly when it
starts with neither `./` nor `/`. -/
def specSaysBuiltin (s : String) : Bool :=
  !(rustStartsWith s "./") && !(rustStartsWith s "/")

/-! ## Concrete fixtures for counterexamples and witnesses -/

/-- Filesystem with a single user module `/d/b.txt`, imported from
`/d/a.js`; compilation and instantiation succeed. -/
def env1 : LoaderEnv :=
  { canonicalize := fun p => if p = "/d/./b.txt" then some "/d/b.txt" else none,
    readFile := fun p => if p = "/d/b.txt" then some "export const x = 1;" else none,
    compile := fun _ p => if p = "/d/b.txt" then some (5, 9) else none,
    instantiateOk := fun _ => true,
    syntheticModule := fun _ => 42 }

/-- Loader state in which module id `1` is the module at `/d/a.js`. -/
def st1 : LoaderState :=
  { id_to_path_map := [(1, "/d/a.js")], module_cache := [], builtin_modules := [] }

/-- Environment where every read and compile succeeds and every
instantiation fails. -/
def envFail : LoaderEnv :=
  { canonicalize := fun p => some p,
    readFile := fun _ => some "export const x = 1;",
    compile := fun _ _ => some (5, 9),
    instantiateOk := fun _ => false,
    syntheticModule := fun _ => 42 }

/-- Environment where every operation succeeds. -/
def envOk : LoaderEnv :=
  { canonicalize := fun p => some p,
    readFile := fun _ => some "export const x = 1;",
    compile := fun _ _ => some (5, 9),
    instantiateOk := fun _ => true,
    syntheticModule := fun _ => 42 }

/-- A registry with two pending tasks (ids 0 and 1). -/
def regSt2 : RegState := { tasks := [(0, 100), (1, 101)], settlements := [] }

/-- Completion message: task 0 resolves with `Undefined`. -/
def msgA : AsyncTaskMessage := { task_id := 0, payload := .resolve .undefined }

/-- Completion message: task 1 rejects with `Number(3)`. -/
def msgB : AsyncTaskMessage := { task_id := 1, payload := .reject (.num 3) }

/-- A string of `2^31` ASCII `a`s (UTF-8 byte length `2^31`). -/
def bigA31 : String := String.mk (List.replicate (2 ^ 31) 'a')

/-- A string of `2^32` ASCII `a`s (UTF-8 byte length `2^32`). -/
def bigA32 : String := String.mk (List.replicate (2 ^ 32) 'a')

/-- The file name (last component) of a path. -/
def fileNameOf (p : String) : List Char := (splitFileName p.data).2

/-- The path has a real file name (Rust: `file_name()` is not `None`),
so `set_extension` operates on it. -/
def properFileName (p : String) : Prop :=
  fileNameOf p ≠ [] ∧ fileNameOf p ≠ ['.'] ∧ fileNameOf p ≠ ['.', '.']

/-- Whether the path's file name carries an extension. -/
def hasFileExtension (p : String) : Bool := (rustExtSplit (fileNameOf p)).isSome

/-! # Theorems -/

/-! ## Association-list and path lemmas -/

/-- Lookup in the empty map. -/
theorem alookup_nil {α β : Type} [DecidableEq α] (k : α) :
    alookup k ([] : List (α × β)) = none := rfl

/-- Lookup steps over a head entry. -/
theorem alookup_cons {α β : Type} [DecidableEq α] (k a : α) (b : β) (l : List (α × β)) :
    alookup k ((a, b) :: l) = if a = k then some b else alookup k l := rfl

/-- Removing a key really removes it. -/
theorem alookup_eraseKey_self {α β : Type} [DecidableEq α] (k : α) (l : List (α × β)) :
    alookup k (eraseKey k l) = none := by
  induction l with
  | nil => rfl
  | cons hd tl ih =>
    obtain ⟨a, b⟩ := hd
    by_cases h : a = k
    · simpa [eraseKey, h] using ih
    · simpa [eraseKey, h, alookup_cons] using ih

/-- Removing one key leaves every other key's binding unchanged. -/
theorem alookup_eraseKey_ne {α β : Type} [DecidableEq α] {k k' : α} (l : List (α × β))
    (h : k ≠ k') : alookup k' (eraseKey k l) = alookup k' l := by
  induction l with
  | nil => rfl
  | cons hd tl ih =>
    obtain ⟨a, b⟩ := hd
    by_cases ha : a = k
    · subst ha
      simpa [eraseKey, alookup_cons, h] using ih
    · simp [eraseKey, ha, alookup_cons, ih]

/-- The directory part and file name reassemble to the original path. -/
theorem splitFileName_append (cs : List Char) :
    (splitFileName cs).1 ++ (splitFileName cs).2 = cs := by
  simp only [splitFileName]
  rw [← List.reverse_append, List.takeWhile_append_dropWhile, List.reverse_reverse]

/-- Shape of a successful `extSplitRev`: the reversed name is the
reversed extension, a dot, then the reversed stem. -/
theorem extSplitRev_eq {l e s : List Char} (h : extSplitRev l = some (e, s)) :
    l = e ++ '.' :: s := by
  induction l generalizing e s with
  | nil => simp [extSplitRev] at h
  | cons c rest ih =>
    simp only [extSplitRev] at h
    by_cases hc : c = '.'
    · rw [if_pos hc] at h
      by_cases hr : rest = []
      · rw [if_pos hr] at h; cases h
      · rw [if_neg hr] at h
        obtain ⟨he, hs⟩ := Prod.mk.injEq .. ▸ Option.some.injEq .. ▸ h
        subst he; subst hs; simp [hc]
    · rw [if_neg hc] at h
      cases hrec : extSplitRev rest with
      | none => rw [hrec] at h; cases h
      | some pr =>
        rw [hrec] at h
        simp only [Option.map_some', Option.some.injEq] at h
        obtain ⟨he, hs⟩ := Prod.mk.injEq .. ▸ h
        subst he; subst hs
        simpa using congrArg (c :: ·) (ih hrec)

/-- Shape of a successful extension split: the name is the stem, a dot,
then the extension. -/
theorem rustExtSplit_eq {name stem ext : List Char}
    (h : rustExtSplit name = some (stem, ext)) : name = stem ++ '.' :: ext := by
  simp only [rustExtSplit] at h
  cases hrec : extSplitRev name.reverse with
  | none => rw [hrec] at h; cases h
  | some pr =>
    rw [hrec] at h
    simp only [Option.map_some', Option.some.injEq] at h
    obtain ⟨e, s⟩ := pr
    obtain ⟨h1, h2⟩ := Prod.mk.injEq .. ▸ h
    subst h1; subst h2
    have := extSplitRev_eq hrec
    have hname : name = (e ++ '.' :: s).reverse := by
      rw [← this, List.reverse_reverse]
    simpa [List.reverse_append] using hname

/-! ## Loader lemmas -/

/-- `get_or_compile_module` never touches the built-in module map. -/
theorem get_or_compile_builtins (env : LoaderEnv) (st : LoaderState) (p : String) :
    ((get_or_compile_module env st p).2).builtin_modules = st.builtin_modules := by
  unfold get_or_compile_module
  split
  · rfl
  · split
    · rfl
    · split
      · rfl
      · split
        · rfl
        · rfl

/-- With instantiation always succeeding, `get_or_compile_module`
preserves the `id_to_path_map → module_cache` inclusion. -/
theorem idPathInvariant_get_or_compile (env : LoaderEnv) (st : LoaderState) (p : String)
    (hinst : ∀ m, env.instantiateOk m = true) (h : idPathInvariant st) :
    idPathInvariant (get_or_compile_module env st p).2 := by
  unfold get_or_compile_module
  split
  · exact h
  · split
    · exact h
    · split
      · exact h
      · next m hashId heq =>
        rw [if_pos (hinst m)]
        intro id q hq
        rw [show alookup id ((hashId, p) :: st.id_to_path_map) =
            if hashId = id then some p else alookup id st.id_to_path_map from rfl] at hq
        by_cases hk : hashId = id
        · rw [if_pos hk] at hq
          obtain rfl : p = q := Option.some.inj hq
          exact ⟨m, by rw [alookup_cons, if_pos rfl]⟩
        · rw [if_neg hk] at hq
          obtain ⟨mm, hmm⟩ := h id q hq
          by_cases hpq : p = q
          · exact ⟨m, by rw [alookup_cons, if_pos hpq]⟩
          · exact ⟨mm, by rw [alookup_cons, if_neg hpq]; exact hmm⟩

/-- `load_builtin_module` leaves `id_to_path_map` and `module_cache`
alone, so it preserves the inclusion. -/
theorem idPathInvariant_load_builtin (env : LoaderEnv) (st : LoaderState) (s : String)
    (h : idPathInvariant st) : idPathInvariant (load_builtin_module env st s).2 := by
  unfold load_builtin_module
  split
  · exact h
  · exact h

/-- `resolve_module_callback` preserves the inclusion when instantiation
always succeeds. -/
theorem idPathInvariant_resolve (env : LoaderEnv) (st : LoaderState) (s : String)
    (rid : Int) (hinst : ∀ m, env.instantiateOk m = true) (h : idPathInvariant st) :
    idPathInvariant (resolve_module_callback env st s rid).2 := by
  unfold resolve_module_callback
  by_cases hb : isBuiltinSpecifier s = true
  · rw [if_pos hb]
    exact idPathInvariant_load_builtin env st s h
  · rw [if_neg hb]
    split
    · exact h
    · split
      · exact h
      · exact idPathInvariant_get_or_compile env st _ hinst h

/-- Every loader operation preserves the inclusion when instantiation
always succeeds. -/
theorem idPathInvariant_applyOp (env : LoaderEnv) (st : LoaderState) (op : LoaderOp)
    (hinst : ∀ m, env.instantiateOk m = true) (h : idPathInvariant st) :
    idPathInvariant (applyLoaderOp env st op) := by
  cases op with
  | getOrCompile p => exact idPathInvariant_get_or_compile env st p hinst h
  | loadBuiltin s => exact idPathInvariant_load_builtin env st s h
  | createFirst p =>
    show idPathInvariant (create_first_module env st p).2
    unfold create_first_module
    split
    · exact h
    · exact idPathInvariant_get_or_compile env st _ hinst h
  | resolveCallback s r => exact idPathInvariant_resolve env st s r hinst h

/-! ## C3 — loader cache invariant -/

/-- C3 (counterexample). The claim asserts that after ANY sequence of
module-loader operations — including ones where instantiation failed —
every key of `id_to_path_map` has a `module_cache` entry.  One
`get_or_compile_module` call in an environment where instantiation fails
(read and compile succeeding) leaves identity hash `9` mapped to
`/d/a.js` in `id_to_path_map` while `module_cache` stays empty: the
entry made before `instantiate_module` is not rolled back
(`module_loader.rs` lines 134–144). -/
theorem c3_invariant_violated :
    ¬ idPathInvariant (applyLoaderOps envFail initLoaderState
      [LoaderOp.getOrCompile "/d/a.js"]) := by
  intro h
  obtain ⟨m, hm⟩ := h 9 "/d/a.js" rfl
  exact Option.noConfusion hm

/-- C3 (amended). As long as every instantiation succeeds, every key of
`id_to_path_map` has a corresponding `module_cache` entry after any
sequence of module-loader operations; a failed instantiation, however,
leaves an `id_to_path_map` key with no cache entry (see the
counterexample). -/
theorem c3_invariant_under_successful_instantiation :
    ∀ (env : LoaderEnv) (st : LoaderState) (ops : List LoaderOp),
      (∀ m, env.instantiateOk m = true) → idPathInvariant st →
      idPathInvariant (applyLoaderOps env st ops) := by
  intro env st ops hinst h
  induction ops generalizing st with
  | nil => exact h
  | cons op rest ih => exact ih _ (idPathInvariant_applyOp env st op hinst h)

/-- C3 (witness). The amended theorem applied to a concrete run: an
environment whose instantiation always succeeds, the empty initial
state, and a three-operation sequence. -/
theorem c3_invariant_witness :
    (∀ m, envOk.instantiateOk m = true) ∧ idPathInvariant initLoaderState ∧
    idPathInvariant (applyLoaderOps envOk initLoaderState
      [LoaderOp.getOrCompile "/a.js", LoaderOp.resolveCallback "./b.js" 9,
        LoaderOp.loadBuiltin "fs"]) :=
  ⟨fun _ => rfl,
   fun _ _ hq => Option.noConfusion hq,
   c3_invariant_under_successful_instantiation envOk initLoaderState _
     (fun _ => rfl) (fun _ _ hq => Option.noConfusion hq)⟩

/-! ## C4 — specifier classification -/

/-- C4 (counterexample). The claim says every specifier not starting
with `./` or `/` — among them `../x` — resolves as a built-in module.
The code's test (`module_loader.rs` line 256) treats any specifier
starting with `'.'` as a user module: for `../x` it takes the
filesystem path (failing here on the referrer lookup, result `none`)
instead of returning the synthetic module (`some 42`) that the built-in
branch would produce. -/
theorem c4_dotdot_not_builtin :
    specSaysBuiltin "../x" = true ∧
    isBuiltinSpecifier "../x" = false ∧
    resolve_module_callback envOk initLoaderState "../x" 7 = (none, initLoaderState) ∧
    (load_builtin_module envOk initLoaderState "../x").1 = some 42 :=
  ⟨rfl, rfl, rfl, rfl⟩

/-- C4 (amended). The resolve callback treats a specifier starting with
`'.'` (any dot: `./x`, `../x`, even `.hidden`) or `'/'` as a
relative/absolute user module and everything else as a built-in module:
built-in specifiers go straight to `load_builtin_module`, and user
specifiers never touch the built-in module map. -/
theorem c4_specifier_classification :
    (∀ (env : LoaderEnv) (st : LoaderState) (s : String) (rid : Int),
        isBuiltinSpecifier s = true →
        resolve_module_callback env st s rid = load_builtin_module env st s) ∧
    (∀ (env : LoaderEnv) (st : LoaderState) (s : String) (rid : Int),
        isBuiltinSpecifier s = false →
        (resolve_module_callback env st s rid).2.builtin_modules = st.builtin_modules) ∧
    (∀ s, (rustStartsWith s "." || rustStartsWith s "/") = !isBuiltinSpecifier s) ∧
    isBuiltinSpecifier ".hidden" = false := by
  refine ⟨?_, ?_, ?_, rfl⟩
  · intro env st s rid hb
    unfold resolve_module_callback
    rw [if_pos hb]
  · intro env st s rid hb
    unfold resolve_module_callback
    rw [if_neg (by simp [hb])]
    split
    · rfl
    · split
      · rfl
      · exact get_or_compile_builtins env st _
  · intro s
    cases hd : rustStartsWith s "." <;> cases hs : rustStartsWith s "/" <;>
      simp [isBuiltinSpecifier, hd, hs]

/-- C4 (witness). The amended theorem applied to the bare specifier
`fs` (built-in branch) and the relative specifier `./a.js` (user
branch). -/
theorem c4_specifier_classification_witness :
    isBuiltinSpecifier "fs" = true ∧
    resolve_module_callback envOk initLoaderState "fs" 0 =
      load_builtin_module envOk initLoaderState "fs" ∧
    isBuiltinSpecifier "./a.js" = false ∧
    (resolve_module_callback envOk st1 "./a.js" 1).2.builtin_modules =
      st1.builtin_modules :=
  ⟨rfl, c4_specifier_classification.1 envOk initLoaderState "fs" 0 rfl, rfl,
    c4_specifier_classification.2.1 envOk st1 "./a.js" 1 rfl⟩

/-! ## C1 — extension candidate order -/

/-- Unfolded form of `rustSetExtension p ""`. -/
theorem rustSetExtension_empty_eq (p : String) :
    rustSetExtension p "" =
      if (splitFileName p.data).2 = [] ∨ (splitFileName p.data).2 = ['.'] ∨
          (splitFileName p.data).2 = ['.', '.'] then p
      else String.mk ((splitFileName p.data).1 ++
        match rustExtSplit (splitFileName p.data).2 with
        | some pr => pr.1
        | none => (splitFileName p.data).2) := rfl

/-- Unfolded form of `rustSetExtension p "js"`. -/
theorem rustSetExtension_js_eq (p : String) :
    rustSetExtension p "js" =
      if (splitFileName p.data).2 = [] ∨ (splitFileName p.data).2 = ['.'] ∨
          (splitFileName p.data).2 = ['.', '.'] then p
      else String.mk ((splitFileName p.data).1 ++
        ((match rustExtSplit (splitFileName p.data).2 with
          | some pr => pr.1
          | none => (splitFileName p.data).2) ++ '.' :: ['j', 's'])) := rfl

/-- C1 (counterexample). The claim says the exact literal joined path is
tried first and the first candidate that canonicalizes is handed to
`get_or_compile_module`.  For specifier `./b.txt` from referrer
`/d/a.js`, on a filesystem where exactly `/d/./b.txt` exists (and `/d/b.txt`
is its canonical form), the code resolves nothing — because
`set_extension` strips the `.txt` extension, the candidates are
`/d/./b` and `/d/./b.js` and the literal path is never tried — while a
resolver following the spec's words compiles the module (`some 5`). -/
theorem c1_literal_path_not_tried :
    (resolve_module_callback env1 st1 "./b.txt" 1).1 = none ∧
    (spec_resolve_module_callback env1 st1 "./b.txt" 1).1 = some 5 ∧
    env1.canonicalize (rustJoin (rustParent "/d/a.js") "./b.txt") = some "/d/b.txt" ∧
    extensionCandidates (rustJoin (rustParent "/d/a.js") "./b.txt") =
      ["/d/./b", "/d/./b.js"] :=
  ⟨rfl, rfl, rfl, rfl⟩

/-- C1 (amended). After joining `dirname(referrer)` with the specifier,
the loader tries `joined.set_extension("")` — the joined path with any
existing extension stripped — and then `joined.set_extension("js")` —
with the extension replaced by `js`; the first candidate that
canonicalizes to an existing path is handed to
`get_or_compile_module`.  The literal joined path is the first
candidate exactly when its file name has no extension (and then the
second candidate is the literal path with `.js` appended). -/
theorem c1_extension_resolution :
    (∀ joined, extensionCandidates joined =
        [rustSetExtension joined "", rustSetExtension joined "js"]) ∧
    (∀ joined : String, properFileName joined →
        (hasFileExtension joined = false ↔ rustSetExtension joined "" = joined)) ∧
    (∀ joined : String, properFileName joined → hasFileExtension joined = false →
        rustSetExtension joined "js" = joined ++ ".js") ∧
    (∀ (env : LoaderEnv) (st : LoaderState) (s : String) (rid : Int) (rpath : String),
        isBuiltinSpecifier s = false →
        alookup rid st.id_to_path_map = some rpath →
        resolve_module_callback env st s rid =
          match (extensionCandidates (rustJoin (rustParent rpath) s)).findSome?
              env.canonicalize with
          | none => (none, st)
          | some path => get_or_compile_module env st path) := by
  have hcond : ∀ p : String, properFileName p →
      ¬((splitFileName p.data).2 = [] ∨ (splitFileName p.data).2 = ['.'] ∨
        (splitFileName p.data).2 = ['.', '.']) := by
    intro p hp
    push_neg
    exact ⟨hp.1, hp.2.1, hp.2.2⟩
  have hnone : ∀ p : String, hasFileExtension p = false →
      rustExtSplit (splitFileName p.data).2 = none := by
    intro p hne
    cases hsp : rustExtSplit (splitFileName p.data).2 with
    | none => rfl
    | some pr =>
      exfalso
      have : hasFileExtension p = true := by
        unfold hasFileExtension fileNameOf
        rw [hsp]
        rfl
      rw [this] at hne
      cases hne
  refine ⟨fun _ => rfl, ?_, ?_, ?_⟩
  · intro joined hp
    constructor
    · intro hne
      rw [rustSetExtension_empty_eq, if_neg (hcond joined hp), hnone joined hne]
      show String.mk ((splitFileName joined.data).1 ++ (splitFileName joined.data).2) = joined
      rw [splitFileName_append]
    · intro heq
      cases hext : hasFileExtension joined with
      | false => rfl
      | true =>
        exfalso
        obtain ⟨pr, hpr⟩ := Option.isSome_iff_exists.mp (by
          unfold hasFileExtension at hext
          exact hext)
        obtain ⟨stem, ext⟩ := pr
        unfold fileNameOf at hpr
        rw [rustSetExtension_empty_eq, if_neg (hcond joined hp), hpr] at heq
        have hdata : (splitFileName joined.data).1 ++ stem = joined.data :=
          congrArg String.data heq
        have h2 : (splitFileName joined.data).1 ++ stem =
            (splitFileName joined.data).1 ++ (splitFileName joined.data).2 :=
          hdata.trans (splitFileName_append joined.data).symm
        have h3 := List.append_cancel_left h2
        rw [rustExtSplit_eq hpr] at h3
        have hlen := congrArg List.length h3
        simp at hlen
  · intro joined hp hne
    rw [rustSetExtension_js_eq, if_neg (hcond joined hp), hnone joined hne]
    show String.mk ((splitFileName joined.data).1 ++
        ((splitFileName joined.data).2 ++ '.' :: ['j', 's'])) = joined ++ ".js"
    have : (joined ++ ".js").data = joined.data ++ '.' :: ['j', 's'] := rfl
    apply String.ext
    rw [this, show (String.mk ((splitFileName joined.data).1 ++
        ((splitFileName joined.data).2 ++ '.' :: ['j', 's']))).data =
        (splitFileName joined.data).1 ++ ((splitFileName joined.data).2 ++ '.' :: ['j', 's'])
        from rfl]
    rw [← List.append_assoc, splitFileName_append]
  · intro env st s rid rpath hb hlook
    unfold resolve_module_callback
    rw [if_neg (by simp [hb]), hlook]

/-- C1 (witness). The amended theorem applied to the extensionless
joined path `/d/./b` (specifier `./b` from referrer `/d/a.js`): the
candidates are the literal path and the literal path with `.js`
appended, and the callback hands the filesystem scan's winner to
`get_or_compile_module`. -/
theorem c1_extension_resolution_witness :
    properFileName "/d/./b" ∧ hasFileExtension "/d/./b" = false ∧
    rustSetExtension "/d/./b" "" = "/d/./b" ∧
    rustSetExtension "/d/./b" "js" = "/d/./b.js" ∧
    isBuiltinSpecifier "./b" = false ∧
    alookup 1 st1.id_to_path_map = some "/d/a.js" ∧
    resolve_module_callback envOk st1 "./b" 1 = get_or_compile_module envOk st1 "/d/./b" := by
  refine ⟨⟨by decide, by decide, by decide⟩, rfl, ?_, ?_, rfl, rfl, ?_⟩
  · exact (c1_extension_resolution.2.1 "/d/./b" ⟨by decide, by decide, by decide⟩).mp rfl
  · exact c1_extension_resolution.2.2.1 "/d/./b" ⟨by decide, by decide, by decide⟩ rfl
  · exact (c1_extension_resolution.2.2.2 envOk st1 "./b" 1 "/d/a.js" rfl rfl).trans rfl

/-! ## C5 — the `fs` surface -/

/-- C5 (counterexample). The claim asserts a global object named `fs`
is exposed to script.  `inject_global_values` (`src/global/mod.rs`
lines 29–35) injects only `print`; no global is named `fs`, so the
claimed identity between a global `fs` and the imported module's
default export has no left-hand side. -/
theorem c5_no_global_fs : alookup "fs" inject_global_values = none := rfl

/-- C5 (amended). No global `fs` object is exposed: `print` is the only
injected global.  The `fs` API (an object with an `openFile` method) is
reachable only as the `default` export of a bare-specifier import such
as `import fs from "fs"` — and the synthetic-module factory ignores the
specifier, so every bare specifier yields that same `fs`-shaped default
export. -/
theorem c5_globals_and_builtin :
    inject_global_values = [("print", HostFunction.printImpl)] ∧
    alookup "print" inject_global_values = some HostFunction.printImpl ∧
    init_builtin_module_exports = ["default"] ∧
    builtin_default_export_methods "fs" = ["openFile"] ∧
    (∀ specifier, builtin_default_export_methods specifier = create_fs_methods) :=
  ⟨rfl, rfl, rfl, rfl, fun _ => rfl⟩

/-! ## Registry and event-loop lemmas -/

/-- The loop emits nothing for an exhausted channel. -/
theorem run_event_loop_nil (st : RegState) : run_event_loop st [] = (st, []) := rfl

/-- One loop iteration: process the head message, then the rest. -/
theorem run_event_loop_cons (st : RegState) (m : AsyncTaskMessage)
    (rest : List AsyncTaskMessage) :
    run_event_loop st (m :: rest) =
      ((run_event_loop (processMessage st m) rest).1,
        stepEvents st m ++ (run_event_loop (processMessage st m) rest).2) := rfl

/-- Splitting a message sequence splits the run. -/
theorem run_event_loop_append (st : RegState) (xs ys : List AsyncTaskMessage) :
    run_event_loop st (xs ++ ys) =
      ((run_event_loop (run_event_loop st xs).1 ys).1,
        (run_event_loop st xs).2 ++ (run_event_loop (run_event_loop st xs).1 ys).2) := by
  induction xs generalizing st with
  | nil => simp [run_event_loop_nil]
  | cons m rest ih =>
    rw [List.cons_append, run_event_loop_cons, run_event_loop_cons, ih]
    simp [List.append_assoc]

/-- Delivering a message does not disturb the pending entry of any other
task id. -/
theorem processMessage_alookup_ne (st : RegState) (m : AsyncTaskMessage) {id : Nat}
    (h : id ≠ m.task_id) :
    alookup id (processMessage st m).tasks = alookup id st.tasks := by
  unfold processMessage
  cases hl : alookup m.task_id st.tasks with
  | none => rfl
  | some r => exact alookup_eraseKey_ne st.tasks (fun he => h he.symm)

/-- Running the loop over messages that never mention `id` leaves `id`'s
pending entry untouched. -/
theorem run_event_loop_alookup (st : RegState) (msgs : List AsyncTaskMessage) (id : Nat)
    (h : id ∉ msgs.map AsyncTaskMessage.task_id) :
    alookup id (run_event_loop st msgs).1.tasks = alookup id st.tasks := by
  induction msgs generalizing st with
  | nil => rfl
  | cons m rest ih =>
    rw [List.map_cons, List.mem_cons] at h
    push_neg at h
    rw [run_event_loop_cons]
    exact (ih (processMessage st m) h.2).trans (processMessage_alookup_ne st m h.1)

/-! ## C2 — event-loop termination -/

/-- While the manager's `channel_sender` field is alive, no `recv` step
returns. -/
theorem liveLoopStep_not_returned (cfg : LiveLoopConfig)
    (h : cfg.channel_sender_live = true) : isReturned (liveLoopStep cfg) = false := by
  obtain ⟨buf, sl, st⟩ := cfg
  subst h
  cases buf <;> rfl

/-- Delivering messages never drops the manager's sender field. -/
theorem liveLoopIterate_sender : ∀ (n : Nat) (cfg : LiveLoopConfig),
    (liveLoopIterate n cfg).channel_sender_live = cfg.channel_sender_live := by
  intro n
  induction n with
  | zero => intro cfg; rfl
  | succ k ih =>
    intro cfg
    obtain ⟨buf, sl, st⟩ := cfg
    cases buf with
    | nil => cases sl <;> rfl
    | cons m rest => exact ih ⟨rest, sl, processMessage st m⟩

/-- C2 (the code contradicts the claim). `TokioAsyncTaskManager` keeps
`channel_sender` as a field for the manager's whole lifetime
(`async_task.rs` line 63), and `run_event_loop(&mut self, ..)` holds
the manager, so a sender is alive for the entire loop: `recv().await`
can never return `None`.  With the sender field alive, no step of the
loop ever returns — in particular, on the failing input where the one
spawned task's completion (`msgA`) has been delivered, the next `recv`
blocks forever instead of returning, and so `JsRuntime::execute`,
which awaits the loop before handing back `main`'s result
(`lib.rs` lines 115–121), never returns either. -/
theorem c2_event_loop_never_returns :
    (∀ (buf : List AsyncTaskMessage) (st : RegState),
      isReturned (liveLoopStep ⟨buf, true, st⟩) = false) ∧
    (∀ n : Nat,
      isReturned (liveLoopStep (liveLoopIterate n ⟨[msgA], true, regSt2⟩)) = false) ∧
    liveLoopIterate 1 ⟨[msgA], true, regSt2⟩ =
      ⟨[], true, processMessage regSt2 msgA⟩ ∧
    liveLoopStep ⟨[], true, processMessage regSt2 msgA⟩ = LoopOutcome.blocked := by
  refine ⟨?_, ?_, rfl, rfl⟩
  · intro buf st
    exact liveLoopStep_not_returned ⟨buf, true, st⟩ rfl
  · intro n
    exact liveLoopStep_not_returned _ (liveLoopIterate_sender n ⟨[msgA], true, regSt2⟩)

/-- First component of `run_event_loop_cons`. -/
theorem run_event_loop_cons_fst (st : RegState) (m : AsyncTaskMessage)
    (rest : List AsyncTaskMessage) :
    (run_event_loop st (m :: rest)).1 = (run_event_loop (processMessage st m) rest).1 := rfl

/-- Second component of `run_event_loop_cons`. -/
theorem run_event_loop_cons_snd (st : RegState) (m : AsyncTaskMessage)
    (rest : List AsyncTaskMessage) :
    (run_event_loop st (m :: rest)).2 =
      stepEvents st m ++ (run_event_loop (processMessage st m) rest).2 := rfl

/-- First component of `run_event_loop_append`. -/
theorem run_event_loop_append_fst (st : RegState) (xs ys : List AsyncTaskMessage) :
    (run_event_loop st (xs ++ ys)).1 = (run_event_loop (run_event_loop st xs).1 ys).1 := by
  rw [run_event_loop_append]

/-- Second component of `run_event_loop_append`. -/
theorem run_event_loop_append_snd (st : RegState) (xs ys : List AsyncTaskMessage) :
    (run_event_loop st (xs ++ ys)).2 =
      (run_event_loop st xs).2 ++ (run_event_loop (run_event_loop st xs).1 ys).2 := by
  rw [run_event_loop_append]

/-! ## C6 — microtask checkpoint ordering -/

/-- C6. For two messages settled in arrival order (both finding their
pending task), the event trace contains the settlement of the first,
immediately followed by its forced microtask checkpoint — at which the
first promise's continuations run — strictly before the settlement of
the second: continuations of the earlier settlement run before the
later promise is even settled, hence before its continuations. -/
theorem c6_microtask_ordering :
    ∀ (st : RegState) (pre mid post : List AsyncTaskMessage) (m1 m2 : AsyncTaskMessage),
      isPending m1.task_id st = true →
      m1.task_id ∉ pre.map AsyncTaskMessage.task_id →
      isPending m2.task_id st = true →
      m2.task_id ∉ (pre ++ m1 :: mid).map AsyncTaskMessage.task_id →
      ∃ A B C,
        (run_event_loop st (pre ++ (m1 :: (mid ++ (m2 :: post))))).2 =
          A ++ LoopEvent.settle m1.task_id (armOf m1.payload) ::
            LoopEvent.checkpoint m1.task_id ::
            (B ++ LoopEvent.settle m2.task_id (armOf m2.payload) ::
              LoopEvent.checkpoint m2.task_id :: C) := by
  intro st pre mid post m1 m2 h1p h1pre h2p h2notin
  have hm1 : alookup m1.task_id (run_event_loop st pre).1.tasks =
      alookup m1.task_id st.tasks :=
    run_event_loop_alookup st pre _ h1pre
  rw [List.map_append, List.mem_append] at h2notin
  push_neg at h2notin
  obtain ⟨h2pre, h2cons⟩ := h2notin
  rw [List.map_cons, List.mem_cons] at h2cons
  push_neg at h2cons
  obtain ⟨h2ne1, h2mid⟩ := h2cons
  rw [run_event_loop_append_snd st pre (m1 :: (mid ++ (m2 :: post))),
    run_event_loop_cons_snd, run_event_loop_append_snd, run_event_loop_cons_snd]
  obtain ⟨r1, hr1⟩ := Option.isSome_iff_exists.mp
    (show (alookup m1.task_id (run_event_loop st pre).1.tasks).isSome = true from
      by rw [hm1]; exact h1p)
  have hstep1 : stepEvents (run_event_loop st pre).1 m1 =
      [LoopEvent.settle m1.task_id (armOf m1.payload), LoopEvent.checkpoint m1.task_id] := by
    unfold stepEvents
    rw [hr1]
  have hm2 : alookup m2.task_id
      (run_event_loop (processMessage (run_event_loop st pre).1 m1) mid).1.tasks =
      alookup m2.task_id st.tasks := by
    rw [run_event_loop_alookup _ mid _ h2mid,
      processMessage_alookup_ne _ _ h2ne1,
      run_event_loop_alookup st pre _ h2pre]
  obtain ⟨r2, hr2⟩ := Option.isSome_iff_exists.mp
    (show (alookup m2.task_id
        (run_event_loop (processMessage (run_event_loop st pre).1 m1) mid).1.tasks).isSome =
        true from by rw [hm2]; exact h2p)
  have hstep2 : stepEvents
      (run_event_loop (processMessage (run_event_loop st pre).1 m1) mid).1 m2 =
      [LoopEvent.settle m2.task_id (armOf m2.payload), LoopEvent.checkpoint m2.task_id] := by
    unfold stepEvents
    rw [hr2]
  refine ⟨(run_event_loop st pre).2,
    (run_event_loop (processMessage (run_event_loop st pre).1 m1) mid).2,
    (run_event_loop (processMessage
      (run_event_loop (processMessage (run_event_loop st pre).1 m1) mid).1 m2) post).2, ?_⟩
  rw [hstep1, hstep2]
  simp [List.append_assoc]

/-- C6 (witness). The ordering theorem applied to a concrete registry
with two pending tasks and the two completion messages in order. -/
theorem c6_microtask_ordering_witness :
    isPending msgA.task_id regSt2 = true ∧
    msgA.task_id ∉ List.map AsyncTaskMessage.task_id ([] : List AsyncTaskMessage) ∧
    isPending msgB.task_id regSt2 = true ∧
    msgB.task_id ∉ List.map AsyncTaskMessage.task_id ([] ++ msgA :: []) ∧
    ∃ A B C,
      (run_event_loop regSt2 ([] ++ (msgA :: ([] ++ (msgB :: []))))).2 =
        A ++ LoopEvent.settle msgA.task_id (armOf msgA.payload) ::
          LoopEvent.checkpoint msgA.task_id ::
          (B ++ LoopEvent.settle msgB.task_id (armOf msgB.payload) ::
            LoopEvent.checkpoint msgB.task_id :: C) :=
  ⟨rfl, by simp, rfl, by simp [msgA, msgB],
    c6_microtask_ordering regSt2 [] [] [] msgA msgB rfl (by simp) rfl
      (by simp [msgA, msgB])⟩

/-! ## C7 — delivery semantics and the pending/settled exchange -/

/-- C7. For every dequeued message: when its task id is pending, the
pending entry is removed and the promise settled in the same step — the
`Resolve` payload drives the resolve arm and the `Reject` payload the
reject arm — after which the id is no longer pending and is settled;
when the id is not pending, the message is dropped and the registry is
unchanged; and delivery preserves the invariant that no id is both
pending and settled. -/
theorem c7_message_delivery :
    ∀ (st : RegState) (m : AsyncTaskMessage),
      (isPending m.task_id st = true →
        processMessage st m =
          { tasks := eraseKey m.task_id st.tasks,
            settlements := (m.task_id, armOf m.payload) :: st.settlements } ∧
        isPending m.task_id (processMessage st m) = false ∧
        isSettled m.task_id (processMessage st m) = true) ∧
      (isPending m.task_id st = false → processMessage st m = st) ∧
      (∀ v, armOf (AsyncTaskResult.resolve v) = SettleArm.resolvedArm (into_v8 v)) ∧
      (∀ v, armOf (AsyncTaskResult.reject v) = SettleArm.rejectedArm (into_v8 v)) ∧
      (regInvariant st → regInvariant (processMessage st m)) := by
  intro st m
  refine ⟨?_, ?_, fun _ => rfl, fun _ => rfl, ?_⟩
  · intro hp
    obtain ⟨r, hr⟩ := Option.isSome_iff_exists.mp hp
    have heq : processMessage st m =
        { tasks := eraseKey m.task_id st.tasks,
          settlements := (m.task_id, armOf m.payload) :: st.settlements } := by
      unfold processMessage
      rw [hr]
    refine ⟨heq, ?_, ?_⟩
    · rw [heq]
      unfold isPending
      dsimp only
      rw [alookup_eraseKey_self]
      rfl
    · rw [heq]
      unfold isSettled
      dsimp only
      rw [alookup_cons, if_pos rfl]
      rfl
  · intro hp
    unfold processMessage
    have hnone : alookup m.task_id st.tasks = none := by
      cases hl : alookup m.task_id st.tasks with
      | none => rfl
      | some r =>
        rw [show isPending m.task_id st = true from by unfold isPending; rw [hl]; rfl] at hp
        cases hp
    rw [hnone]
  · intro hinv id
    cases hcase : alookup m.task_id st.tasks with
    | none =>
      rw [show processMessage st m = st from by unfold processMessage; rw [hcase]]
      exact hinv id
    | some r =>
      have heq : processMessage st m =
          { tasks := eraseKey m.task_id st.tasks,
            settlements := (m.task_id, armOf m.payload) :: st.settlements } := by
        unfold processMessage
        rw [hcase]
      rw [heq]
      intro hand
      obtain ⟨hpnd, hstl⟩ := hand
      by_cases hid : id = m.task_id
      · subst hid
        unfold isPending at hpnd
        dsimp only at hpnd
        rw [alookup_eraseKey_self] at hpnd
        cases hpnd
      · unfold isPending at hpnd
        unfold isSettled at hstl
        dsimp only at hpnd hstl
        rw [alookup_eraseKey_ne st.tasks (fun he => hid he.symm)] at hpnd
        rw [alookup_cons, if_neg (fun he => hid he.symm)] at hstl
        exact hinv id ⟨hpnd, hstl⟩

/-- C7 (witness). Delivery of `msgA` (task 0) on the concrete registry:
atomic removal plus settlement, and invariant preservation. -/
theorem c7_message_delivery_witness :
    isPending msgA.task_id regSt2 = true ∧
    processMessage regSt2 msgA =
      { tasks := eraseKey msgA.task_id regSt2.tasks,
        settlements := (msgA.task_id, armOf msgA.payload) :: regSt2.settlements } ∧
    isPending msgA.task_id (processMessage regSt2 msgA) = false ∧
    isSettled msgA.task_id (processMessage regSt2 msgA) = true ∧
    regInvariant regSt2 ∧ regInvariant (processMessage regSt2 msgA) := by
  have hinv : regInvariant regSt2 := by
    intro id hand
    obtain ⟨hpnd, hstl⟩ := hand
    simp [isSettled, regSt2, alookup] at hstl
  obtain ⟨h1, h2, h3⟩ := (c7_message_delivery regSt2 msgA).1 rfl
  exact ⟨rfl, h1, h2, h3, hinv, (c7_message_delivery regSt2 msgA).2.2.2.2 hinv⟩


/-! ## UTF-8 lemmas -/

/-- Every `Char` is a Unicode scalar value: below the surrogate block or
above it and below `0x110000`. -/
theorem char_valid_cases (c : Char) :
    c.toNat < 0xD800 ∨ (0xE000 ≤ c.toNat ∧ c.toNat < 0x110000) := c.valid

/-- One decode step undoes one character's encoding: the encoding is a
leader byte and a tail, and stepping on leader and tail-plus-rest
returns the character and the rest. -/
theorem utf8DecodeStep_encode (c : Char) (bs : List Nat) :
    ∃ b0 tail, charUtf8Bytes c = b0 :: tail ∧
      utf8DecodeStep b0 (tail ++ bs) = some (c, bs) := by
  have hval := char_valid_cases c
  have hofNat := Char.ofNat_toNat c
  by_cases h1 : c.toNat < 0x80
  · refine ⟨c.toNat, [], by unfold charUtf8Bytes; rw [if_pos h1], ?_⟩
    unfold utf8DecodeStep
    rw [if_pos h1, hofNat]
    rfl
  · by_cases h2 : c.toNat < 0x800
    · refine ⟨0xC0 + c.toNat / 64, [0x80 + c.toNat % 64],
        by unfold charUtf8Bytes; rw [if_neg h1, if_pos h2], ?_⟩
      unfold utf8DecodeStep
      rw [if_neg (by omega), if_neg (by omega), if_pos (by omega)]
      show utf8Step2 (0xC0 + c.toNat / 64) ((0x80 + c.toNat % 64) :: bs) = _
      unfold utf8Step2
      have harith : (0xC0 + c.toNat / 64 - 0xC0) * 64 + (0x80 + c.toNat % 64 - 0x80) =
          c.toNat := by omega
      dsimp only
      split_ifs <;>
        first
        | rw [harith, hofNat]
        | (exfalso; rcases hval with h | h <;> omega)
    · by_cases h3 : c.toNat < 0x10000
      · refine ⟨0xE0 + c.toNat / 4096, [0x80 + c.toNat / 64 % 64, 0x80 + c.toNat % 64],
          by unfold charUtf8Bytes; rw [if_neg h1, if_neg h2, if_pos h3], ?_⟩
        unfold utf8DecodeStep
        rw [if_neg (by omega), if_neg (by omega), if_neg (by omega), if_pos (by omega)]
        show utf8Step3 (0xE0 + c.toNat / 4096)
          ((0x80 + c.toNat / 64 % 64) :: (0x80 + c.toNat % 64) :: bs) = _
        unfold utf8Step3
        have harith : (0xE0 + c.toNat / 4096 - 0xE0) * 4096 +
            (0x80 + c.toNat / 64 % 64 - 0x80) * 64 + (0x80 + c.toNat % 64 - 0x80) =
            c.toNat := by omega
        dsimp only
        split_ifs <;>
          first
          | rw [harith, hofNat]
          | (exfalso; rcases hval with h | h <;> omega)
      · have h4 : c.toNat < 0x110000 := by
          rcases hval with h | h
          · omega
          · exact h.2
        refine ⟨0xF0 + c.toNat / 262144,
          [0x80 + c.toNat / 4096 % 64, 0x80 + c.toNat / 64 % 64, 0x80 + c.toNat % 64],
          by unfold charUtf8Bytes; rw [if_neg h1, if_neg h2, if_neg h3], ?_⟩
        unfold utf8DecodeStep
        rw [if_neg (by omega), if_neg (by omega), if_neg (by omega), if_neg (by omega),
          if_pos (by omega)]
        show utf8Step4 (0xF0 + c.toNat / 262144)
          ((0x80 + c.toNat / 4096 % 64) :: (0x80 + c.toNat / 64 % 64) ::
            (0x80 + c.toNat % 64) :: bs) = _
        unfold utf8Step4
        have harith : (0xF0 + c.toNat / 262144 - 0xF0) * 262144 +
            (0x80 + c.toNat / 4096 % 64 - 0x80) * 4096 +
            (0x80 + c.toNat / 64 % 64 - 0x80) * 64 + (0x80 + c.toNat % 64 - 0x80) =
            c.toNat := by omega
        dsimp only
        split_ifs <;>
          first
          | rw [harith, hofNat]
          | (exfalso; rcases hval with h | h <;> omega)

/-- With enough fuel, decoding an encoded character list gives back
exactly that list. -/
theorem utf8DecodeAux_roundtrip (cs : List Char) :
    ∀ fuel : Nat, (utf8BytesList cs).length ≤ fuel →
      utf8DecodeAux fuel (utf8BytesList cs) = some cs := by
  induction cs with
  | nil => intro fuel _; cases fuel <;> rfl
  | cons c rest ih =>
    intro fuel hf
    obtain ⟨b0, tail, henc, hstep⟩ := utf8DecodeStep_encode c (utf8BytesList rest)
    have hlist : utf8BytesList (c :: rest) = b0 :: (tail ++ utf8BytesList rest) := by
      show charUtf8Bytes c ++ utf8BytesList rest = _
      rw [henc]
      rfl
    rw [hlist] at hf ⊢
    cases fuel with
    | zero => simp at hf
    | succ f =>
      rw [show utf8DecodeAux (f + 1) (b0 :: (tail ++ utf8BytesList rest)) =
          (match utf8DecodeStep b0 (tail ++ utf8BytesList rest) with
           | none => none
           | some cr => (utf8DecodeAux f cr.2).map (fun l => cr.1 :: l)) from rfl]
      rw [hstep]
      dsimp only
      have hfr : (utf8BytesList rest).length ≤ f := by
        rw [List.length_cons, List.length_append] at hf
        omega
      rw [ih f hfr]
      rfl

/-- Round trip: validating the UTF-8 encoding of a character list gives
back exactly that list. -/
theorem utf8_roundtrip (cs : List Char) : utf8Decode (utf8BytesList cs) = some cs :=
  utf8DecodeAux_roundtrip cs _ le_rfl

/-! ## C9 — the value bridge -/

/-- C9. `AsyncTaskValue::into_v8`: a `String` payload that is valid
UTF-8 decodes to exactly the encoded string, an invalid payload yields
the empty string (`from_utf8(..).unwrap_or_default()`); a `Number`
payload (an `i32`) reaches the engine with its exact value — every
`i32` is exactly representable as a binary64 double; `Undefined` maps
to the engine's undefined. -/
theorem c9_value_bridge :
    (∀ s : String, into_v8 (AsyncTaskValue.str (utf8Bytes s)) = V8Value.str s) ∧
    (∀ bytes, utf8Decode bytes = none →
      into_v8 (AsyncTaskValue.str bytes) = V8Value.str "") ∧
    (∀ n : Int, into_v8 (AsyncTaskValue.num n) = V8Value.num n ∧
      (i32Range n → f64ExactInt n)) ∧
    into_v8 AsyncTaskValue.undefined = V8Value.undefined := by
  have hstr : ∀ bytes, into_v8 (AsyncTaskValue.str bytes) =
      V8Value.str (match utf8Decode bytes with
        | some cs => String.mk cs
        | none => "") := fun _ => rfl
  refine ⟨?_, ?_, ?_, rfl⟩
  · intro s
    rw [hstr, show utf8Bytes s = utf8BytesList s.data from rfl, utf8_roundtrip]
  · intro bytes h
    rw [hstr, h]
  · intro n
    refine ⟨rfl, ?_⟩
    intro hr
    unfold i32Range at hr
    unfold f64ExactInt
    have h31 : (2:Int) ^ 31 = 2147483648 := by norm_num
    have h53 : (2:Nat) ^ 53 = 9007199254740992 := by norm_num
    rw [h31] at hr
    rw [h53]
    omega

/-- C9 (witness). The bridge theorem applied to the invalid byte `0xFF`
(empty string), the valid string `ab`, and the number `7`. -/
theorem c9_value_bridge_witness :
    utf8Decode [0xFF] = none ∧
    into_v8 (AsyncTaskValue.str [0xFF]) = V8Value.str "" ∧
    into_v8 (AsyncTaskValue.str (utf8Bytes "ab")) = V8Value.str "ab" ∧
    i32Range 7 ∧ f64ExactInt 7 := by
  refine ⟨rfl, c9_value_bridge.2.1 [0xFF] rfl, c9_value_bridge.1 "ab", ⟨?_, ?_⟩, ?_⟩
  · norm_num
  · norm_num
  · exact (c9_value_bridge.2.2.1 7).2 ⟨by norm_num, by norm_num⟩

/-! ## Byte-count lemmas -/

/-- The UTF-8 encoding of `'a'` is the single byte 97. -/
theorem charUtf8Bytes_a : charUtf8Bytes 'a' = [97] := rfl

/-- Encoding a run of `'a'`s gives a run of the byte 97. -/
theorem utf8BytesList_replicate_a (n : Nat) :
    utf8BytesList (List.replicate n 'a') = List.replicate n 97 := by
  induction n with
  | zero => rfl
  | succ k ih =>
    rw [List.replicate_succ, List.replicate_succ]
    show charUtf8Bytes 'a' ++ utf8BytesList (List.replicate k 'a') = _
    rw [ih, charUtf8Bytes_a]
    rfl

/-- A string of `n` `'a'`s has UTF-8 byte length `n`. -/
theorem bytesLen_replicate_a (n : Nat) :
    bytesLen (String.mk (List.replicate n 'a')) = n := by
  unfold bytesLen utf8Bytes
  rw [show (String.mk (List.replicate n 'a')).data = List.replicate n 'a' from rfl,
    utf8BytesList_replicate_a, List.length_replicate]

/-- The `as i32` cast on a byte count: it is the identity exactly below
`2^31`, and negative exactly when the value modulo `2^32` is at least
`2^31`. -/
theorem toI32_spec (n : Nat) :
    (toI32 n = n ↔ n < 2 ^ 31) ∧ (toI32 n < 0 ↔ 2 ^ 31 ≤ n % 2 ^ 32) := by
  unfold toI32
  have h32 : (2:Nat) ^ 32 = 4294967296 := by norm_num
  have h31 : (2:Nat) ^ 31 = 2147483648 := by norm_num
  have h32i : (2:Int) ^ 32 = 4294967296 := by norm_num
  rw [h32, h31, h32i]
  constructor
  · constructor
    · intro h
      split_ifs at h with hlt
      · omega
      · omega
    · intro h
      rw [if_pos (by omega)]
      omega
  · constructor
    · intro h
      split_ifs at h with hlt
      · omega
      · omega
    · intro h
      rw [if_neg (by omega)]
      omega

/-! ## C8 — the `write` contract -/

/-- C8 (counterexample). The claim says the promise resolves with
exactly `bytes_len(s)`.  For a string of `2^31` ASCII bytes, the
`as i32` cast in `write_file` (`fs.rs` line 171) wraps: the task
resolves with `-(2^31)`, not `2^31`. -/
theorem c8_byte_count_truncates :
    bytesLen bigA31 = 2 ^ 31 ∧
    write_file (V8Value.str bigA31) = Except.ok
      { written := utf8Bytes bigA31, flushed := true,
        okOutcome := AsyncTaskResult.resolve (AsyncTaskValue.num (-(2 ^ 31))) } ∧
    ((-(2 ^ 31) : Int) ≠ ((2 ^ 31 : Nat) : Int)) := by
  have hlen : bytesLen bigA31 = 2 ^ 31 := bytesLen_replicate_a (2 ^ 31)
  have htoI : toI32 (2 ^ 31) = -(2 ^ 31) := by
    unfold toI32
    rw [Nat.mod_eq_of_lt (by norm_num), if_neg (by norm_num)]
    norm_num
  refine ⟨hlen, ?_, by norm_num⟩
  rw [show write_file (V8Value.str bigA31) = Except.ok
      { written := utf8Bytes bigA31, flushed := true,
        okOutcome := AsyncTaskResult.resolve
          (AsyncTaskValue.num (toI32 (bytesLen bigA31))) } from rfl]
  rw [hlen, htoI]

/-- C8 (amended). `write_file` raises a synchronous type error for a
non-string argument (no async task is spawned); for a string `s` it
spawns a task that writes the full UTF-8 byte sequence of `s`, flushes,
and on success resolves with `toI32 (bytes_len s)` — which equals
`bytes_len s` whenever `bytes_len s < 2^31` (always the case for
engine-representable strings). -/
theorem c8_write_contract :
    ∀ arg : V8Value,
      ((∀ s, arg ≠ V8Value.str s) →
        write_file arg = Except.error "type error: the argument must be a string") ∧
      (∀ s, arg = V8Value.str s →
        write_file arg = Except.ok
          { written := utf8Bytes s, flushed := true,
            okOutcome := AsyncTaskResult.resolve
              (AsyncTaskValue.num (toI32 (bytesLen s))) } ∧
        (bytesLen s < 2 ^ 31 → toI32 (bytesLen s) = (bytesLen s : Int))) := by
  intro arg
  constructor
  · intro h
    cases arg with
    | str s => exact absurd rfl (h s)
    | num n => rfl
    | undefined => rfl
  · intro s hs
    subst hs
    exact ⟨rfl, fun hlt => (toI32_spec (bytesLen s)).1.mpr hlt⟩

/-- C8 (witness). The contract applied to the string `hello`: five
bytes written, promise resolved with `5`. -/
theorem c8_write_contract_witness :
    bytesLen "hello" = 5 ∧
    write_file (V8Value.str "hello") = Except.ok
      { written := utf8Bytes "hello", flushed := true,
        okOutcome := AsyncTaskResult.resolve
          (AsyncTaskValue.num (toI32 (bytesLen "hello"))) } ∧
    toI32 (bytesLen "hello") = (bytesLen "hello" : Int) := by
  refine ⟨rfl, ((c8_write_contract (V8Value.str "hello")).2 "hello" rfl).1, ?_⟩
  exact ((c8_write_contract (V8Value.str "hello")).2 "hello" rfl).2 (by decide)

/-! ## C10 — the `as i32` cast -/

/-- C10 (counterexample). The claim says the resolved count for a long
string (`bytes_len ≥ 2^31`) is `bytes_len` reduced modulo `2^32`
reinterpreted as signed, *a negative number*.  At `bytes_len = 2^32`
the reduction yields `0`, which is not negative: the negativity clause
fails for lengths of `2^32` and beyond. -/
theorem c10_nonnegative_large_length :
    bytesLen bigA32 = 2 ^ 32 ∧
    (2 ^ 31 : Nat) ≤ bytesLen bigA32 ∧
    toI32 (bytesLen bigA32) = 0 ∧
    ¬ toI32 (bytesLen bigA32) < 0 := by
  have hlen : bytesLen bigA32 = 2 ^ 32 := bytesLen_replicate_a (2 ^ 32)
  have hz : toI32 (2 ^ 32) = 0 := by
    unfold toI32
    rw [Nat.mod_self, if_pos (by norm_num)]
    rfl
  refine ⟨hlen, by rw [hlen]; norm_num, by rw [hlen, hz], by rw [hlen, hz]; omega⟩

/-- C10 (amended). The byte count `write(s)` resolves with is computed
as `bytes_len(s)` cast to `i32`: it equals `bytes_len(s)` exactly when
`bytes_len(s) < 2^31`, and otherwise is `bytes_len(s)` reduced modulo
`2^32` and reinterpreted as signed — negative precisely when that
residue is at least `2^31` (so not for every long string: at
`bytes_len = 2^32` the result is `0`). -/
theorem c10_byte_count_cast :
    ∀ s : String,
      write_file (V8Value.str s) = Except.ok
        { written := utf8Bytes s, flushed := true,
          okOutcome := AsyncTaskResult.resolve
            (AsyncTaskValue.num (toI32 (bytesLen s))) } ∧
      (toI32 (bytesLen s) = (bytesLen s : Int) ↔ bytesLen s < 2 ^ 31) ∧
      (toI32 (bytesLen s) < 0 ↔ 2 ^ 31 ≤ bytesLen s % 2 ^ 32) :=
  fun s => ⟨rfl, (toI32_spec (bytesLen s)).1, (toI32_spec (bytesLen s)).2⟩
